import Mathlib

/-!
Verification of the sector-view outlier-detection engine
(`src-tauri/src/outlier_detection.rs`) against its specification.

The Rust `f64` values are modelled as real numbers `ℝ`; `i64` fields as `ℤ`;
`Option<f64>` as `Option ℝ`.  `f64::round` (round half away from zero) is
modelled by `rust_round`.  The stable `sort_by` with the
`partial_cmp(..).unwrap_or(Equal)` comparator is modelled by `List.mergeSort`
with the corresponding boolean relation; on `ℝ` the partial comparison is
total, so the `unwrap_or Equal` default is kept in the definition but can
never fire in the model.
-/

namespace SectorView

/-- Raw market data for a single stock (latest entry), from `StockMarketRow`. -/
structure StockMarketRow where
  stock_id : ℤ
  symbol : String
  name : String
  sector_id : ℤ
  price_change_percent : ℝ
  pe_ratio : Option ℝ
  pb_ratio : Option ℝ
  volume : Option ℤ
  avg_volume_10d : Option ℤ

/-- Sector-level statistics for Z-score calculation, from `SectorStats`. -/
structure SectorStats where
  pe_mean : Option ℝ
  pe_std : Option ℝ
  pb_mean : Option ℝ
  pb_std : Option ℝ
  price_mean : ℝ
  price_std : ℝ
  vol_ratio_mean : Option ℝ
  vol_ratio_std : Option ℝ

/-- Z-scores of one stock, from `types.rs` `ZScores`. -/
structure ZScores where
  pe_z : Option ℝ
  pb_z : Option ℝ
  price_z : ℝ
  volume_z : Option ℝ

/-- Outlier classification labels, from `types.rs` `OutlierType`. -/
inductive OutlierType where
  | Undervalued
  | Overvalued
  | Momentum
  | ValueTrap
  | GrowthPremium
  | Mixed
deriving DecidableEq

/-- Significance tiers, from `types.rs` `SignificanceLevel`. -/
inductive SignificanceLevel where
  | Moderate
  | Strong
  | Extreme
deriving DecidableEq

/-- One flagged stock, from `types.rs` `OutlierStock`. -/
structure OutlierStock where
  stock_id : ℤ
  symbol : String
  name : String
  z_scores : ZScores
  composite_score : ℝ
  outlier_type : OutlierType
  significance_level : SignificanceLevel

/-- Model of Rust `f64::round`: round half away from zero. -/
noncomputable def rust_round (x : ℝ) : ℝ :=
  if 0 ≤ x then (⌊x + 1 / 2⌋ : ℤ) else (⌈x - 1 / 2⌉ : ℤ)

/-- Mean and standard deviation of a slice, from `mean_std` (lines 313-324). -/
noncomputable def mean_std (values : List ℝ) : ℝ × ℝ :=
  let n : ℝ := values.length
  if n < 1 then (0, 0)
  else
    let mean := values.sum / n
    if n < 2 then (mean, 0)
    else
      let variance := (values.map (fun v => (v - mean) ^ 2)).sum / (n - 1)
      (mean, Real.sqrt variance)

/-- Volume ratio of a row as extracted by the closure in `calculate_stats`
(lines 149-157): `volume / avg_volume_10d` when both are present and
`avg_volume_10d > 0`, otherwise nothing. -/
noncomputable def vol_ratio_of (r : StockMarketRow) : Option ℝ :=
  match r.volume, r.avg_volume_10d with
  | some v, some av => if av > 0 then some ((v : ℝ) / (av : ℝ)) else none
  | _, _ => none

/-- Sector statistics, from `calculate_stats` (lines 125-175). -/
noncomputable def calculate_stats (rows : List StockMarketRow) : SectorStats :=
  let prices := rows.map (·.price_change_percent)
  let price_ms := mean_std prices
  let pes := rows.filterMap (·.pe_ratio)
  let pe_ms : Option ℝ × Option ℝ :=
    if pes.length ≥ 2 then (some (mean_std pes).1, some (mean_std pes).2)
    else (none, none)
  let pbs := rows.filterMap (·.pb_ratio)
  let pb_ms : Option ℝ × Option ℝ :=
    if pbs.length ≥ 2 then (some (mean_std pbs).1, some (mean_std pbs).2)
    else (none, none)
  let vol_ratios := rows.filterMap vol_ratio_of
  let vol_ms : Option ℝ × Option ℝ :=
    if vol_ratios.length ≥ 2 then (some (mean_std vol_ratios).1, some (mean_std vol_ratios).2)
    else (none, none)
  { pe_mean := pe_ms.1
    pe_std := pe_ms.2
    pb_mean := pb_ms.1
    pb_std := pb_ms.2
    price_mean := price_ms.1
    price_std := price_ms.2
    vol_ratio_mean := vol_ms.1
    vol_ratio_std := vol_ms.2 }

/-- Z-scores of one stock relative to sector stats, from `calculate_z_scores`
(lines 178-209). -/
noncomputable def calculate_z_scores (row : StockMarketRow) (stats : SectorStats) : ZScores :=
  let price_z :=
    if stats.price_std > 0.001 then
      (row.price_change_percent - stats.price_mean) / stats.price_std
    else 0
  let pe_z :=
    match row.pe_ratio, stats.pe_mean, stats.pe_std with
    | some pe, some mean, some std =>
        if std > 0.001 then some ((pe - mean) / std) else none
    | _, _, _ => none
  let pb_z :=
    match row.pb_ratio, stats.pb_mean, stats.pb_std with
    | some pb, some mean, some std =>
        if std > 0.001 then some ((pb - mean) / std) else none
    | _, _, _ => none
  let volume_z :=
    match row.volume, row.avg_volume_10d, stats.vol_ratio_mean, stats.vol_ratio_std with
    | some v, some av, some mean, some std =>
        if av > 0 ∧ std > 0.001 then some (((v : ℝ) / (av : ℝ) - mean) / std) else none
    | _, _, _, _ => none
  { pe_z := pe_z
    pb_z := pb_z
    price_z := price_z
    volume_z := volume_z }

/-- Composite outlier score (weighted RMS), from `calculate_composite_score`
(lines 212-243).  The running accumulation of the Rust code is written as a
chain of updates. -/
noncomputable def calculate_composite_score (z : ZScores) : ℝ :=
  let ws0 : ℝ := 0 + 0.3 * z.price_z * z.price_z
  let tw0 : ℝ := 0 + 0.3
  let acc1 : ℝ × ℝ :=
    match z.pe_z with
    | some pe => (ws0 + 0.3 * pe * pe, tw0 + 0.3)
    | none => (ws0, tw0)
  let acc2 : ℝ × ℝ :=
    match z.pb_z with
    | some pb => (acc1.1 + 0.2 * pb * pb, acc1.2 + 0.2)
    | none => acc1
  let acc3 : ℝ × ℝ :=
    match z.volume_z with
    | some vol => (acc2.1 + 0.2 * vol * vol, acc2.2 + 0.2)
    | none => acc2
  if acc3.2 > 0 then Real.sqrt (acc3.1 / acc3.2) else 0

open Classical in
/-- Outlier-type rule chain, from `classify_outlier` (lines 246-268).
`map_or(false, p)` on an `Option<f64>` is modelled by `Option.elim · False p`. -/
noncomputable def classify_outlier (z : ZScores) : OutlierType :=
  let pe_low := z.pe_z.elim False (fun v => v < -1)
  let pe_high := z.pe_z.elim False (fun v => v > 1)
  let pb_low := z.pb_z.elim False (fun v => v < -1)
  let pb_high := z.pb_z.elim False (fun v => v > 1)
  let price_high := z.price_z > 1
  let price_low := z.price_z < -1
  let vol_high := z.volume_z.elim False (fun v => v > 1)
  if pe_low ∧ pb_low then OutlierType.Undervalued
  else if pe_high ∧ pb_high then OutlierType.Overvalued
  else if price_high ∧ vol_high then OutlierType.Momentum
  else if pe_low ∧ price_low then OutlierType.ValueTrap
  else if pe_high ∧ price_high then OutlierType.GrowthPremium
  else OutlierType.Mixed

open Classical in
/-- Significance tier from a composite score, from `classify_significance`
(lines 271-279). -/
noncomputable def classify_significance (score : ℝ) : SignificanceLevel :=
  if score ≥ 3 then SignificanceLevel.Extreme
  else if score ≥ 2 then SignificanceLevel.Strong
  else SignificanceLevel.Moderate

/-- Model of `f64::partial_cmp`: on `ℝ` (no NaN) it always returns a value. -/
noncomputable def float_partial_compare (x y : ℝ) : Option Ordering :=
  some (compare x y)

open Classical in
/-- Boolean relation corresponding to the Rust comparator
`b.composite_score.partial_cmp(&a.composite_score).unwrap_or(Equal)`
(line 114): `sort_le a b` holds when the comparator does not answer
`Greater` on the pair `(a, b)`. -/
noncomputable def sort_le (a b : OutlierStock) : Bool :=
  decide (((float_partial_compare b.composite_score a.composite_score).getD Ordering.eq)
    ≠ Ordering.gt)

/-- Construction of one result entry, from lines 101-109. -/
noncomputable def mk_outlier (row : StockMarketRow) (z : ZScores) (composite : ℝ) :
    OutlierStock :=
  { stock_id := row.stock_id
    symbol := row.symbol
    name := row.name
    z_scores := z
    composite_score := rust_round (composite * 100) / 100
    outlier_type := classify_outlier z
    significance_level := classify_significance composite }

open Classical in
/-- Detect outliers within a single sector, from `detect_sector_outliers`
(lines 60-122).  The database fetch is the caller-supplied row list; the
best-effort `save_detection` side effect has no bearing on the returned
value and is omitted. -/
noncomputable def detect_sector_outliers (rows : List StockMarketRow) (threshold : ℝ) :
    List OutlierStock :=
  if rows.length < 3 then []
  else
    let stats := calculate_stats rows
    let outliers := rows.filterMap (fun row =>
      let z := calculate_z_scores row stats
      let composite := calculate_composite_score z
      if composite ≥ threshold then some (mk_outlier row z composite) else none)
    outliers.mergeSort sort_le

/-- Composite score a row receives inside `detect_sector_outliers`. -/
noncomputable def composite_of (rows : List StockMarketRow) (row : StockMarketRow) : ℝ :=
  calculate_composite_score (calculate_z_scores row (calculate_stats rows))

/-- Result entry a row produces inside `detect_sector_outliers`. -/
noncomputable def entry_of (rows : List StockMarketRow) (row : StockMarketRow) :
    OutlierStock :=
  mk_outlier row (calculate_z_scores row (calculate_stats rows)) (composite_of rows row)

open Classical in
/-- Rows whose composite score reaches the threshold (the rows the loop in
`detect_sector_outliers` keeps). -/
noncomputable def flagged (rows : List StockMarketRow) (threshold : ℝ) :
    List StockMarketRow :=
  rows.filter fun row => decide (composite_of rows row ≥ threshold)

/-- Spec-side reading of a strict below-threshold test on an optional z-score:
the value exists and lies strictly below `-1`. -/
def z_below (o : Option ℝ) : Prop := ∃ v, o = some v ∧ v < -1

/-- Spec-side reading of a strict above-threshold test on an optional z-score:
the value exists and lies strictly above `1`. -/
def z_above (o : Option ℝ) : Prop := ∃ v, o = some v ∧ v > 1

/-- Rule 1 of the spec's classification chain. -/
def rule_undervalued (z : ZScores) : Prop := z_below z.pe_z ∧ z_below z.pb_z

/-- Rule 2 of the spec's classification chain. -/
def rule_overvalued (z : ZScores) : Prop := z_above z.pe_z ∧ z_above z.pb_z

/-- Rule 3 of the spec's classification chain. -/
def rule_momentum (z : ZScores) : Prop := z.price_z > 1 ∧ z_above z.volume_z

/-- Rule 4 of the spec's classification chain. -/
def rule_value_trap (z : ZScores) : Prop := z_below z.pe_z ∧ z.price_z < -1

/-- Rule 5 of the spec's classification chain. -/
def rule_growth_premium (z : ZScores) : Prop := z_above z.pe_z ∧ z.price_z > 1

/-- Spec-side sample mean. -/
noncomputable def spec_mean (xs : List ℝ) : ℝ := xs.sum / xs.length

/-- Spec-side sample standard deviation with Bessel's correction (meaningful
for samples of size at least 2). -/
noncomputable def spec_std (xs : List ℝ) : ℝ :=
  Real.sqrt ((xs.map fun x => (x - spec_mean xs) ^ 2).sum / ((xs.length : ℝ) - 1))

/-- Spec-side optional statistics of a metric: defined exactly when at least
2 rows contribute a value, and then given by the sample mean and sample
standard deviation over only those values. -/
noncomputable def spec_opt_stats (xs : List ℝ) : Option ℝ × Option ℝ :=
  if 2 ≤ xs.length then (some (spec_mean xs), some (spec_std xs)) else (none, none)

/-- Row with only the mandatory price-change metric; the optional metrics are
absent. -/
noncomputable def price_row (id : ℤ) (sym nm : String) (p : ℝ) : StockMarketRow :=
  { stock_id := id
    symbol := sym
    name := nm
    sector_id := 1
    price_change_percent := p
    pe_ratio := none
    pb_ratio := none
    volume := none
    avg_volume_10d := none }

/-- Concrete sector of two stocks (below the minimum sample size). -/
noncomputable def rows_pair : List StockMarketRow :=
  [price_row 1 "A" "Company A" 1, price_row 2 "B" "Company B" 5]

/-- Concrete sector of three price-only stocks. -/
noncomputable def rows3 : List StockMarketRow :=
  [price_row 1 "A" "Company A" 1, price_row 2 "B" "Company B" 2,
   price_row 3 "C" "Company C" 3]

/-- Concrete sector of six price-only stocks whose sixth member gets a
composite score of `sqrt(229441 / 57606) ≈ 1.9957`: it rounds to `2.00` at
two decimals while lying strictly below `2`. -/
noncomputable def rows6 : List StockMarketRow :=
  [price_row 1 "A" "Company A" 0, price_row 2 "B" "Company B" 0,
   price_row 3 "C" "Company C" 0, price_row 4 "D" "Company D" 0,
   price_row 5 "E" "Company E" (21 / 100), price_row 6 "F" "Company F" 1]

/-- The sixth row of `rows6`. -/
noncomputable def row6 : StockMarketRow := price_row 6 "F" "Company F" 1

/-- The result entry `row6` produces in `detect_sector_outliers rows6 1`. -/
noncomputable def outlier6 : OutlierStock := entry_of rows6 row6

lemma elim_below_iff (o : Option ℝ) : (o.elim False fun v => v < -1) ↔ z_below o := by
  cases o <;> simp [z_below]

lemma elim_above_iff (o : Option ℝ) : (o.elim False fun v => v > 1) ↔ z_above o := by
  cases o <;> simp [z_above]

lemma mean_std_fst (xs : List ℝ) : (mean_std xs).1 = xs.sum / xs.length := by
  simp only [mean_std]
  split_ifs with h1 h2
  · have h0 : xs.length = 0 := by
      by_contra hne
      have : (1 : ℝ) ≤ xs.length := by exact_mod_cast Nat.one_le_iff_ne_zero.mpr hne
      linarith
    obtain rfl := List.length_eq_zero.mp h0
    simp
  · rfl
  · rfl

lemma mean_std_snd_of_lt_two (xs : List ℝ) (h : xs.length < 2) : (mean_std xs).2 = 0 := by
  simp only [mean_std]
  split_ifs with h1 h2
  · rfl
  · rfl
  · have h2' : 2 ≤ xs.length := by exact_mod_cast not_lt.mp h2
    omega

lemma mean_std_snd_of_two_le (xs : List ℝ) (h : 2 ≤ xs.length) :
    (mean_std xs).2 =
      Real.sqrt ((xs.map fun x => (x - xs.sum / xs.length) ^ 2).sum /
        ((xs.length : ℝ) - 1)) := by
  simp only [mean_std]
  rw [if_neg (by exact_mod_cast (show ¬xs.length < 1 by omega)),
    if_neg (by exact_mod_cast (show ¬xs.length < 2 by omega))]

/-- C3: `classify_outlier` evaluates the five rules in order with first match
winning, every comparison strict, and a missing z-score failing every
comparison it appears in; in particular `pe_z = -2, price_z = -2, pb_z = none`
classifies as `ValueTrap`, not `Undervalued`. -/
theorem classify_outlier_rule_chain :
    (∀ z : ZScores,
      (classify_outlier z = OutlierType.Undervalued ↔ rule_undervalued z) ∧
      (classify_outlier z = OutlierType.Overvalued ↔
        ¬rule_undervalued z ∧ rule_overvalued z) ∧
      (classify_outlier z = OutlierType.Momentum ↔
        ¬rule_undervalued z ∧ ¬rule_overvalued z ∧ rule_momentum z) ∧
      (classify_outlier z = OutlierType.ValueTrap ↔
        ¬rule_undervalued z ∧ ¬rule_overvalued z ∧ ¬rule_momentum z ∧ rule_value_trap z) ∧
      (classify_outlier z = OutlierType.GrowthPremium ↔
        ¬rule_undervalued z ∧ ¬rule_overvalued z ∧ ¬rule_momentum z ∧
          ¬rule_value_trap z ∧ rule_growth_premium z) ∧
      (classify_outlier z = OutlierType.Mixed ↔
        ¬rule_undervalued z ∧ ¬rule_overvalued z ∧ ¬rule_momentum z ∧
          ¬rule_value_trap z ∧ ¬rule_growth_premium z)) ∧
    classify_outlier ⟨some (-2), none, -2, none⟩ = OutlierType.ValueTrap := by
  constructor
  · intro z
    have h1 := elim_below_iff z.pe_z
    have h2 := elim_above_iff z.pe_z
    have h3 := elim_below_iff z.pb_z
    have h4 := elim_above_iff z.pb_z
    have h5 := elim_above_iff z.volume_z
    simp only [classify_outlier, rule_undervalued, rule_overvalued, rule_momentum,
      rule_value_trap, rule_growth_premium]
    split_ifs with hu ho hm hv hg <;> simp_all
  · simp only [classify_outlier, Option.elim]
    norm_num

/-- Spec-side total weight of the composite score: price always contributes
0.3, each defined optional z-score contributes its weight. -/
noncomputable def spec_weight_total (z : ZScores) : ℝ :=
  0.3 + (z.pe_z.elim 0 fun _ => 0.3) + (z.pb_z.elim 0 fun _ => 0.2)
    + (z.volume_z.elim 0 fun _ => 0.2)

/-- Spec-side weighted sum of squared z-scores over the defined metrics. -/
noncomputable def spec_weighted_sum (z : ZScores) : ℝ :=
  0.3 * z.price_z ^ 2 + (z.pe_z.elim 0 fun v => 0.3 * v ^ 2)
    + (z.pb_z.elim 0 fun v => 0.2 * v ^ 2) + (z.volume_z.elim 0 fun v => 0.2 * v ^ 2)

/-- C4: the composite score is `sqrt(weighted_sum / total_weight)` with weights
price 0.3 (always), P/E 0.3, P/B 0.2, volume 0.2 over exactly the defined
z-scores; the total weight is at least 0.3 and hence positive, so the
`total_weight = 0` fallback of `0.0` is never taken. -/
theorem calculate_composite_score_spec (z : ZScores) :
    calculate_composite_score z = Real.sqrt (spec_weighted_sum z / spec_weight_total z) ∧
    0.3 ≤ spec_weight_total z ∧ 0 < spec_weight_total z := by
  obtain ⟨pe, pb, p, vol⟩ := z
  cases pe <;> cases pb <;> cases vol <;>
    simp only [calculate_composite_score, spec_weighted_sum, spec_weight_total,
      Option.elim] <;>
    refine ⟨?_, by norm_num, by norm_num⟩ <;>
    rw [if_pos (by norm_num)] <;>
    congr 1 <;> ring

/-- C5: price z-score is `(value - mean) / std` exactly when the price std-dev
exceeds 0.001 and `0.0` exactly otherwise; each optional z-score is defined if
and only if the raw value exists, the sector statistic exists, and that
metric's std-dev exceeds 0.001 (volume additionally requires
`avg_volume_10d > 0` for the ratio `volume / avg_volume_10d`); in every other
case the optional z-score is `none`, never `0`. -/
theorem calculate_z_scores_spec (row : StockMarketRow) (stats : SectorStats) :
    ((calculate_z_scores row stats).price_z =
      if stats.price_std > 0.001 then
        (row.price_change_percent - stats.price_mean) / stats.price_std
      else 0) ∧
    (∀ w : ℝ, (calculate_z_scores row stats).pe_z = some w ↔
      ∃ pe m s, row.pe_ratio = some pe ∧ stats.pe_mean = some m ∧
        stats.pe_std = some s ∧ s > 0.001 ∧ w = (pe - m) / s) ∧
    (∀ w : ℝ, (calculate_z_scores row stats).pb_z = some w ↔
      ∃ pb m s, row.pb_ratio = some pb ∧ stats.pb_mean = some m ∧
        stats.pb_std = some s ∧ s > 0.001 ∧ w = (pb - m) / s) ∧
    (∀ w : ℝ, (calculate_z_scores row stats).volume_z = some w ↔
      ∃ v av m s, row.volume = some v ∧ row.avg_volume_10d = some av ∧ av > 0 ∧
        stats.vol_ratio_mean = some m ∧ stats.vol_ratio_std = some s ∧ s > 0.001 ∧
        w = ((v : ℝ) / (av : ℝ) - m) / s) := by
  refine ⟨rfl, ?_, ?_, ?_⟩
  · intro w
    simp only [calculate_z_scores]
    rcases hpe : row.pe_ratio with _ | pe <;>
      rcases hm : stats.pe_mean with _ | m <;>
      rcases hs : stats.pe_std with _ | s <;>
      simp [eq_comm, and_assoc]
  · intro w
    simp only [calculate_z_scores]
    rcases hpb : row.pb_ratio with _ | pb <;>
      rcases hm : stats.pb_mean with _ | m <;>
      rcases hs : stats.pb_std with _ | s <;>
      simp [eq_comm, and_assoc]
  · intro w
    simp only [calculate_z_scores]
    rcases hv : row.volume with _ | v <;>
      rcases hav : row.avg_volume_10d with _ | av <;>
      rcases hm : stats.vol_ratio_mean with _ | m <;>
      rcases hs : stats.vol_ratio_std with _ | s <;>
      simp [eq_comm, and_assoc]

/-- C8: the significance tiers partition the real line with closed lower
boundaries: `Strong` exactly on `[2, 3)`, `Extreme` exactly on `[3, ∞)`,
`Moderate` exactly on `(-∞, 2)`. -/
theorem classify_significance_spec (s : ℝ) :
    (classify_significance s = SignificanceLevel.Strong ↔ 2 ≤ s ∧ s < 3) ∧
    (classify_significance s = SignificanceLevel.Extreme ↔ 3 ≤ s) ∧
    (classify_significance s = SignificanceLevel.Moderate ↔ s < 2) := by
  simp only [classify_significance]
  split_ifs with h1 h2
  · refine ⟨by simp; intro h; linarith, by simpa using h1, by simp; linarith⟩
  · refine ⟨?_, ?_, ?_⟩
    · simpa using ⟨h2, lt_of_not_ge h1⟩
    · simpa using lt_of_not_ge h1
    · simpa using h2
  · refine ⟨?_, ?_, ?_⟩
    · simp
      intro h
      exact absurd h h2
    · simpa using lt_of_not_ge h1
    · simpa using lt_of_not_ge h2

/-- C6: `calculate_stats` computes the price mean as `Σx / n`, the price
standard deviation by Bessel's correction for `n ≥ 2` and `0` for smaller
samples (in particular `(0, 0)` for `n = 0`, as `spec_mean [] = 0`); each of
the P/E, P/B and volume-ratio statistics is defined exactly when at least two
rows contribute a value for that metric, computed by the same formulas over
only the contributed values, a row contributing a volume ratio
`volume / avg_volume_10d` only when both fields are present and
`avg_volume_10d > 0`. -/
theorem calculate_stats_spec (rows : List StockMarketRow) :
    (calculate_stats rows).price_mean = spec_mean (rows.map (·.price_change_percent)) ∧
    (calculate_stats rows).price_std =
      (if 2 ≤ rows.length then spec_std (rows.map (·.price_change_percent)) else 0) ∧
    ((calculate_stats rows).pe_mean, (calculate_stats rows).pe_std) =
      spec_opt_stats (rows.filterMap (·.pe_ratio)) ∧
    ((calculate_stats rows).pb_mean, (calculate_stats rows).pb_std) =
      spec_opt_stats (rows.filterMap (·.pb_ratio)) ∧
    ((calculate_stats rows).vol_ratio_mean, (calculate_stats rows).vol_ratio_std) =
      spec_opt_stats (rows.filterMap vol_ratio_of) := by
  refine ⟨?_, ?_, ?_, ?_, ?_⟩
  · simp only [calculate_stats, spec_mean]
    exact mean_std_fst _
  · simp only [calculate_stats]
    by_cases h : 2 ≤ rows.length
    · rw [if_pos h]
      have hlen : (rows.map (·.price_change_percent)).length = rows.length :=
        List.length_map _ _
      rw [mean_std_snd_of_two_le _ (by omega)]
      simp [spec_std, spec_mean]
    · rw [if_neg h]
      exact mean_std_snd_of_lt_two _ (by rw [List.length_map]; omega)
  · simp only [calculate_stats, spec_opt_stats, ge_iff_le]
    by_cases h : 2 ≤ (rows.filterMap (·.pe_ratio)).length
    · rw [if_pos h, if_pos h, mean_std_snd_of_two_le _ h]
      simp [spec_std, spec_mean, mean_std_fst]
    · rw [if_neg h, if_neg h]
  · simp only [calculate_stats, spec_opt_stats, ge_iff_le]
    by_cases h : 2 ≤ (rows.filterMap (·.pb_ratio)).length
    · rw [if_pos h, if_pos h, mean_std_snd_of_two_le _ h]
      simp [spec_std, spec_mean, mean_std_fst]
    · rw [if_neg h, if_neg h]
  · simp only [calculate_stats, spec_opt_stats, ge_iff_le]
    by_cases h : 2 ≤ (rows.filterMap vol_ratio_of).length
    · rw [if_pos h, if_pos h, mean_std_snd_of_two_le _ h]
      simp [spec_std, spec_mean, mean_std_fst]
    · rw [if_neg h, if_neg h]

/-- C7: with fewer than 3 rows the detection returns the empty list, a defined
outcome rather than an error, for every threshold. -/
theorem detect_insufficient_rows (rows : List StockMarketRow) (threshold : ℝ)
    (h : rows.length < 3) : detect_sector_outliers rows threshold = [] := by
  simp [detect_sector_outliers, h]

/-- Witness for C7: a concrete sector of 2 stocks yields the empty result. -/
theorem detect_insufficient_rows_witness :
    rows_pair.length < 3 ∧ detect_sector_outliers rows_pair 1 = [] :=
  ⟨by simp [rows_pair], detect_insufficient_rows rows_pair 1 (by simp [rows_pair])⟩

lemma filterMap_if {α β : Type} (p : α → Prop) [DecidablePred p] (f : α → β)
    (l : List α) :
    (l.filterMap fun a => if p a then some (f a) else none) =
      (l.filter fun a => decide (p a)).map f := by
  induction l with
  | nil => rfl
  | cons a t ih =>
    by_cases h : p a <;> simp [List.filterMap_cons, List.filter_cons, h, ih]

lemma detect_eq (rows : List StockMarketRow) (t : ℝ) (h : ¬rows.length < 3) :
    detect_sector_outliers rows t =
      ((flagged rows t).map (entry_of rows)).mergeSort sort_le := by
  simp only [detect_sector_outliers, flagged, entry_of, composite_of]
  rw [if_neg h]
  congr 1
  exact filterMap_if _ _ _

lemma sort_le_iff (a b : OutlierStock) :
    sort_le a b = true ↔ b.composite_score ≤ a.composite_score := by
  simp only [sort_le, float_partial_compare, Option.getD_some, decide_eq_true_eq]
  exact compare_le_iff_le

lemma sort_le_total (a b : OutlierStock) : sort_le a b || sort_le b a := by
  simp only [Bool.or_eq_true, sort_le_iff]
  exact le_total _ _

/-- C9: the returned list is sorted in non-increasing order of
`composite_score` (the comparator never rejects a pair, so the sort always
completes; on the real-valued model the partial comparison is total and the
`unwrap_or Equal` default is unreachable). -/
theorem detect_sorted_descending (rows : List StockMarketRow) (t : ℝ) :
    (detect_sector_outliers rows t).Pairwise
      (fun a b => b.composite_score ≤ a.composite_score) := by
  by_cases h : rows.length < 3
  · simp [detect_sector_outliers, h]
  · rw [detect_eq rows t h]
    refine List.Pairwise.imp ?_ (List.sorted_mergeSort ?_ ?_ _)
    · intro a b hab
      exact (sort_le_iff a b).mp hab
    · intro a b c hab hbc
      exact (sort_le_iff a c).mpr
        (le_trans ((sort_le_iff b c).mp hbc) ((sort_le_iff a b).mp hab))
    · exact sort_le_total

/-- C10: every returned element originates from a distinct input row with
`stock_id`, `symbol` and `name` copied unchanged: the result is a permutation
of the image of a sublist of the input, its length never exceeds the input
length, and every element carries the identity fields of some input row. -/
theorem detect_elements_from_rows (rows : List StockMarketRow) (t : ℝ) :
    ∃ sub : List StockMarketRow, sub.Sublist rows ∧
      (detect_sector_outliers rows t).Perm (sub.map (entry_of rows)) ∧
      (detect_sector_outliers rows t).length ≤ rows.length ∧
      ∀ o ∈ detect_sector_outliers rows t, ∃ row ∈ rows,
        o.stock_id = row.stock_id ∧ o.symbol = row.symbol ∧ o.name = row.name := by
  by_cases h : rows.length < 3
  · refine ⟨[], List.nil_sublist _, ?_, ?_, ?_⟩ <;> simp [detect_sector_outliers, h]
  · have he := detect_eq rows t h
    refine ⟨flagged rows t, List.filter_sublist _, ?_, ?_, ?_⟩
    · rw [he]
      exact List.mergeSort_perm _ _
    · rw [he, List.length_mergeSort, List.length_map]
      exact List.Sublist.length_le (List.filter_sublist _)
    · intro o ho
      rw [he, List.mem_mergeSort] at ho
      obtain ⟨row, hrow, rfl⟩ := List.mem_map.mp ho
      exact ⟨row, List.mem_of_mem_filter hrow, rfl, rfl, rfl⟩

/-- C2: with at least 3 rows, a row's entry is in the result whenever its
unrounded composite score reaches the threshold, every result element comes
from such a row, and the stored `composite_score` is that row's unrounded
score rounded to 2 decimal places. -/
theorem detect_threshold_membership (rows : List StockMarketRow) (t : ℝ)
    (h : 3 ≤ rows.length) :
    (∀ row ∈ rows, composite_of rows row ≥ t →
      entry_of rows row ∈ detect_sector_outliers rows t) ∧
    (∀ o ∈ detect_sector_outliers rows t, ∃ row ∈ rows,
      composite_of rows row ≥ t ∧ o = entry_of rows row ∧
      o.composite_score = rust_round (composite_of rows row * 100) / 100) := by
  have h' : ¬rows.length < 3 := by omega
  rw [detect_eq rows t h']
  simp only [flagged]
  constructor
  · intro row hrow hge
    rw [List.mem_mergeSort]
    exact List.mem_map_of_mem _ (List.mem_filter.mpr ⟨hrow, by simpa using hge⟩)
  · intro o ho
    rw [List.mem_mergeSort] at ho
    obtain ⟨row, hrow, rfl⟩ := List.mem_map.mp ho
    have hf := List.mem_filter.mp hrow
    exact ⟨row, hf.1, by simpa using hf.2, rfl, rfl⟩

/-- Witness for C2 at a concrete sector of three rows and threshold 3/2. -/
theorem detect_threshold_membership_witness :
    3 ≤ rows3.length ∧
    ((∀ row ∈ rows3, composite_of rows3 row ≥ 3 / 2 →
      entry_of rows3 row ∈ detect_sector_outliers rows3 (3 / 2)) ∧
    (∀ o ∈ detect_sector_outliers rows3 (3 / 2), ∃ row ∈ rows3,
      composite_of rows3 row ≥ 3 / 2 ∧ o = entry_of rows3 row ∧
      o.composite_score = rust_round (composite_of rows3 row * 100) / 100)) :=
  ⟨by simp [rows3], detect_threshold_membership rows3 (3 / 2) (by simp [rows3])⟩

lemma price_row_pe (id : ℤ) (sym nm : String) (p : ℝ) :
    (price_row id sym nm p).pe_ratio = none := rfl

lemma price_row_pb (id : ℤ) (sym nm : String) (p : ℝ) :
    (price_row id sym nm p).pb_ratio = none := rfl

lemma price_row_price (id : ℤ) (sym nm : String) (p : ℝ) :
    (price_row id sym nm p).price_change_percent = p := rfl

lemma vol_ratio_price_row (id : ℤ) (sym nm : String) (p : ℝ) :
    vol_ratio_of (price_row id sym nm p) = none := rfl

lemma stats_rows6 : calculate_stats rows6 =
    { pe_mean := none
      pe_std := none
      pb_mean := none
      pb_std := none
      price_mean := 121 / 600
      price_std := Real.sqrt (9601 / 60000)
      vol_ratio_mean := none
      vol_ratio_std := none } := by
  simp only [calculate_stats, rows6, List.map_cons, List.map_nil,
    List.filterMap_cons, List.filterMap_nil, price_row_pe, price_row_pb,
    vol_ratio_price_row, price_row_price]
  norm_num [mean_std]

lemma z6_eval : calculate_z_scores row6 (calculate_stats rows6) =
    { pe_z := none
      pb_z := none
      price_z := (479 / 600) / Real.sqrt (9601 / 60000)
      volume_z := none } := by
  rw [stats_rows6]
  have hstd : (0.001 : ℝ) < Real.sqrt (9601 / 60000) :=
    (Real.lt_sqrt (by norm_num)).mpr (by norm_num)
  simp only [calculate_z_scores, row6, price_row]
  rw [if_pos hstd]
  norm_num

lemma comp6_eval : composite_of rows6 row6 = Real.sqrt (229441 / 57606) := by
  unfold composite_of
  rw [z6_eval]
  simp only [calculate_composite_score]
  rw [if_pos (by norm_num)]
  congr 1
  have hv : (0 : ℝ) < 9601 / 60000 := by norm_num
  have hs : Real.sqrt (9601 / 60000) ^ 2 = 9601 / 60000 := Real.sq_sqrt hv.le
  have hne : Real.sqrt (9601 / 60000) ≠ 0 := Real.sqrt_ne_zero'.mpr hv
  have step : (0 + 0.3 * ((479 / 600) / Real.sqrt (9601 / 60000))
        * ((479 / 600) / Real.sqrt (9601 / 60000))) / (0 + 0.3) =
      ((479 / 600) / Real.sqrt (9601 / 60000)) ^ 2 := by
    ring
  rw [step, div_pow, hs]
  norm_num

lemma outlier6_mem : outlier6 ∈ detect_sector_outliers rows6 1 := by
  have hge : composite_of rows6 row6 ≥ 1 := by
    rw [comp6_eval, ge_iff_le]
    rw [show (1 : ℝ) = Real.sqrt 1 by rw [Real.sqrt_one]]
    exact Real.sqrt_le_sqrt (by norm_num)
  rw [detect_eq rows6 1 (by simp [rows6]), List.mem_mergeSort]
  show entry_of rows6 row6 ∈ _
  apply List.mem_map_of_mem
  simp only [flagged]
  exact List.mem_filter.mpr ⟨by simp [rows6, row6], by simpa using hge⟩

lemma outlier6_score : outlier6.composite_score = 2 := by
  show rust_round (composite_of rows6 row6 * 100) / 100 = 2
  rw [comp6_eval]
  have hlo : (1.995 : ℝ) ≤ Real.sqrt (229441 / 57606) :=
    (Real.le_sqrt (by norm_num) (by norm_num)).mpr (by norm_num)
  have hhi : Real.sqrt (229441 / 57606) < 2.005 :=
    (Real.sqrt_lt' (by norm_num)).mpr (by norm_num)
  have hfloor : ⌊Real.sqrt (229441 / 57606) * 100 + 1 / 2⌋ = 200 := by
    rw [Int.floor_eq_iff]
    constructor <;> push_cast <;> linarith
  simp only [rust_round]
  rw [if_pos (by positivity), hfloor]
  norm_num

lemma outlier6_sig : outlier6.significance_level = SignificanceLevel.Moderate := by
  show classify_significance (composite_of rows6 row6) = _
  rw [comp6_eval]
  have h2 : Real.sqrt (229441 / 57606) < 2 :=
    (Real.sqrt_lt' (by norm_num)).mpr (by norm_num)
  simp only [classify_significance]
  rw [if_neg (by push_neg; linarith), if_neg (by push_neg; linarith)]

/-- Counterexample to C1 as stated: in the sector `rows6` at threshold 1 the
flagged stock `outlier6` stores the rounded composite score `2.00`, whose tier
under the claimed rounded-score rule would be `Strong`, yet its
`significance_level` is `Moderate` (the code tiers the unrounded score
`sqrt(229441/57606) < 2`). -/
theorem significance_rounded_counterexample :
    outlier6 ∈ detect_sector_outliers rows6 1 ∧
    outlier6.composite_score = 2 ∧
    classify_significance outlier6.composite_score = SignificanceLevel.Strong ∧
    outlier6.significance_level = SignificanceLevel.Moderate := by
  refine ⟨outlier6_mem, outlier6_score, ?_, outlier6_sig⟩
  rw [outlier6_score]
  simp only [classify_significance]
  rw [if_neg (by norm_num), if_pos (by norm_num)]

/-- C1 (amended): for every stock flagged by `detect_sector_outliers`, the
`significance_level` is derived from the unrounded composite score of its row
(`< 2.0` Moderate, `[2.0, 3.0)` Strong, `≥ 3.0` Extreme), while the stored
`composite_score` is that score rounded to 2 decimal places; the tier of the
rounded stored score may therefore differ. -/
theorem significance_level_from_unrounded (rows : List StockMarketRow) (t : ℝ)
    (o : OutlierStock) (ho : o ∈ detect_sector_outliers rows t) :
    ∃ row ∈ rows,
      o.significance_level = classify_significance (composite_of rows row) ∧
      o.composite_score = rust_round (composite_of rows row * 100) / 100 := by
  by_cases h : rows.length < 3
  · simp [detect_sector_outliers, h] at ho
  · rw [detect_eq rows t h, List.mem_mergeSort] at ho
    obtain ⟨row, hrow, rfl⟩ := List.mem_map.mp ho
    exact ⟨row, List.mem_of_mem_filter hrow, rfl, rfl⟩

/-- Witness for the amended C1 at the concrete flagged stock `outlier6`. -/
theorem significance_level_from_unrounded_witness :
    outlier6 ∈ detect_sector_outliers rows6 1 ∧
    ∃ row ∈ rows6,
      outlier6.significance_level = classify_significance (composite_of rows6 row) ∧
      outlier6.composite_score = rust_round (composite_of rows6 row * 100) / 100 :=
  ⟨outlier6_mem, significance_level_from_unrounded rows6 1 outlier6 outlier6_mem⟩

end SectorView
